import Mathlib

/-!
Verification of the word-embedding utility module
(`Tensorflow/Amazon Question Answer model/WordEmbeddings.py`).

The module has three parts, each embedded below:
* a lazily-initialized process-wide singleton handle to an external
  sentence-encoder resource (`UniversalEmbedding`, `GetEmbeddingSize`);
* `build_dataset`, which builds a frequency-ranked vocabulary with a
  reserved `"UNK"` bucket and encodes a token stream as integer IDs;
* `generate_batch`, a skip-gram (target, context) batch generator that
  slides a circular window over the encoded stream, sampling context
  positions at random.

Python-level failures (AssertionError, IndexError, ZeroDivisionError)
are embedded as `Except PyError` results.  The process-global random
source used by `generate_batch` is embedded as an explicit oracle
`picks : Nat → List Nat` giving, for each loop iteration, the outcome of
`random.sample(context_words, num_skips)`.
-/

/-- The Python exceptions the embedded functions can raise. -/
inductive PyError where
  | assertionError
  | indexError
  | zeroDivisionError
  deriving DecidableEq, Repr

/-! ### Python `dict` model

Python dictionaries preserve insertion order; assignment to an existing
key updates the value in place (keeping the key's position), assignment
to a fresh key appends.  We model a dict as an association list whose
keys are kept distinct by construction. -/

/-- `d[k] = v` on an insertion-ordered Python dict. -/
def setItem {α β : Type} [DecidableEq α] : List (α × β) → α → β → List (α × β)
  | [], k, v => [(k, v)]
  | p :: ps, k, v => if p.1 = k then (k, v) :: ps else p :: setItem ps k v

/-- `d.get(k)`: the value at the first entry with key `k`, if any. -/
def pyGet {α β : Type} [DecidableEq α] : List (α × β) → α → Option β
  | [], _ => none
  | p :: ps, k => if p.1 = k then some p.2 else pyGet ps k

/-- `d.get(k, dflt)`. -/
def pyGetD {α β : Type} [DecidableEq α] (d : List (α × β)) (k : α) (dflt : β) : β :=
  (pyGet d k).getD dflt

/-! ### `collections.Counter` and `most_common`

`Counter(words)` iterates the dict in insertion order, i.e. the order of
first occurrence of each distinct token.  `most_common(n)` is documented
as `sorted(counter.items(), key=itemgetter(1), reverse=True)[:n]`, a
stable descending sort (ties keep first-occurrence order); for `n ≤ 0`
it returns the empty list. -/

/-- The distinct tokens of `words` in order of first occurrence
(the iteration order of `collections.Counter(words)`). -/
def distinctWords : List String → List String
  | [] => []
  | w :: ws => w :: (distinctWords ws).filter (fun x => x ≠ w)

/-- Insert into a descending-by-count list, after all entries with a
strictly larger count and before all entries inserted earlier with an
equal or smaller count (stability of Python's sort). -/
def insertDesc (x : String × Nat) : List (String × Nat) → List (String × Nat)
  | [] => [x]
  | y :: ys => if x.2 < y.2 then y :: insertDesc x ys else x :: y :: ys

/-- Stable descending sort by count (`sorted(..., reverse=True)`). -/
def sortDesc : List (String × Nat) → List (String × Nat)
  | [] => []
  | x :: xs => insertDesc x (sortDesc xs)

/-- `collections.Counter(words).most_common(n)`. -/
def mostCommon (words : List String) (n : Nat) : List (String × Nat) :=
  (sortDesc ((distinctWords words).map (fun w => (w, words.count w)))).take n

/-! ### `build_dataset` -/

/-- Shallow embedding of `build_dataset(words, n_words)` (lines 26-42).

```
count = [['UNK', -1]]
count.extend(collections.Counter(words).most_common(n_words - 1))
dictionary = dict()
for word, _ in count:
    dictionary[word] = len(dictionary)
data = list(); unk_count = 0
for word in words:
    index = dictionary.get(word, 0)
    if index == 0: unk_count += 1
    data.append(index)
count[0][1] = unk_count
reversed_dictionary = dict(zip(dictionary.values(), dictionary.keys()))
return data, count, dictionary, reversed_dictionary
```

`n_words` is a Python int, so it is embedded as `Int`;
`most_common(n_words - 1)` returns `[]` for `n_words - 1 ≤ 0`, which is
`(n_words - 1).toNat` as the `take` bound.  The function contains no
`raise` and no failing operation, so it always returns `.ok`; the
`Except` wrapper records that fact for the error-handling claims. -/
def build_dataset (words : List String) (n_words : Int) :
    Except PyError
      (List Nat × List (String × Int) × List (String × Nat) × List (Nat × String)) :=
  let count0 : List (String × Int) :=
    ("UNK", (-1 : Int)) ::
      (mostCommon words (n_words - 1).toNat).map (fun p => (p.1, (p.2 : Int)))
  let dictionary : List (String × Nat) :=
    count0.foldl (fun d p => setItem d p.1 d.length) []
  let data : List Nat := words.map (fun w => pyGetD dictionary w 0)
  let unk_count : Nat := data.countP (fun i => i == 0)
  let count : List (String × Int) := ("UNK", (unk_count : Int)) :: count0.tail
  let reversed_dictionary : List (Nat × String) :=
    dictionary.foldl (fun d p => setItem d p.2 p.1) []
  .ok (data, count, dictionary, reversed_dictionary)

/-! ### `generate_batch`

The generator (lines 44-70) uses `random.sample(context_words, num_skips)`
once per loop iteration; the unseeded process-global random source is
embedded as an oracle `picks : Nat → List Nat` giving the sample drawn
at iteration `i`.  `collections.deque(maxlen=span)` is embedded as a
list that keeps the last `span` pushed elements. -/

/-- Push `chunk` onto a deque with `maxlen = span`, evicting from the
front (`deque.extend` / `deque.append`). -/
def pushAll (span : Nat) (buffer chunk : List Nat) : List Nat :=
  let l := buffer ++ chunk
  l.drop (l.length - span)

/-- The inner `for j, context_word in enumerate(words_to_use)` loop of one
iteration (lines 59-61): for each drawn position emit
`(buffer[skip_window], buffer[context_word])`.  Deque indexing raises
`IndexError` when the index is out of range. -/
def emitPairs (skip_window : Nat) (buffer : List Nat) :
    List Nat → Except PyError (List Nat × List Nat)
  | [] => .ok ([], [])
  | cw :: rest =>
    if skip_window < buffer.length then
      if cw < buffer.length then
        match emitPairs skip_window buffer rest with
        | .ok (bs, ls) => .ok (buffer.getD skip_window 0 :: bs, buffer.getD cw 0 :: ls)
        | .error e => .error e
      else .error .indexError
    else .error .indexError

/-- The window advance at the end of one iteration (lines 62-67):

```
if data_index == len(data):
    buffer.extend(data[0:span]); data_index = span
else:
    buffer.append(data[data_index]); data_index += 1
```

`data[data_index]` raises `IndexError` when `data_index > len(data)`. -/
def advance (span : Nat) (data : List Nat) (buffer : List Nat) (data_index : Nat) :
    Except PyError (List Nat × Nat) :=
  if data_index = data.length then
    .ok (pushAll span buffer (data.take span), span)
  else if data_index < data.length then
    .ok (pushAll span buffer [data.getD data_index 0], data_index + 1)
  else .error .indexError

/-- The main `for i in range(batch_size // num_skips)` loop (lines 56-67),
by recursion on the number of remaining iterations.  `i` is the current
iteration index (used to query the random oracle), `buffer` and
`data_index` the window state.  Returns the emitted batch and label
streams together with the final `data_index`. -/
def gbLoop (skip_window span : Nat) (data : List Nat) (picks : Nat → List Nat) :
    Nat → Nat → List Nat → Nat → Except PyError (List Nat × List Nat × Nat)
  | 0, _, _, data_index => .ok ([], [], data_index)
  | g + 1, i, buffer, data_index =>
    match emitPairs skip_window buffer (picks i) with
    | .error e => .error e
    | .ok (bs, ls) =>
      match advance span data buffer data_index with
      | .error e => .error e
      | .ok (buffer2, di2) =>
        match gbLoop skip_window span data picks g (i + 1) buffer2 di2 with
        | .error e => .error e
        | .ok (bs2, ls2, df) => .ok (bs ++ bs2, ls ++ ls2, df)

/-- Shallow embedding of `generate_batch(batch_size, num_skips,
skip_window, data)` (lines 44-70).

* `assert batch_size % num_skips == 0` first evaluates
  `batch_size % num_skips`, which raises `ZeroDivisionError` when
  `num_skips == 0`; a false assert raises `AssertionError`.
* `data_index` starts at `0`, so the guard
  `if data_index + span > len(data): data_index = 0` is a no-op and the
  buffer is seeded with `data[0:span]` (at most `span` elements) and
  `data_index` becomes `span` unconditionally.
* the final `data_index = (data_index + len(data) - span) % len(data)`
  raises `ZeroDivisionError` on empty `data`; its value is dead
  (`data_index` is a local), so only the error effect is embedded.

The labels array has shape `[batch_size, 1]`; its single column is
returned as a flat list. -/
def generate_batch (batch_size num_skips skip_window : Nat) (data : List Nat)
    (picks : Nat → List Nat) : Except PyError (List Nat × List Nat) :=
  if num_skips = 0 then .error .zeroDivisionError
  else if batch_size % num_skips ≠ 0 then .error .assertionError
  else if 2 * skip_window < num_skips then .error .assertionError
  else
    let span := 2 * skip_window + 1
    match gbLoop skip_window span data picks (batch_size / num_skips) 0
        (data.take span) span with
    | .error e => .error e
    | .ok (bs, ls, _) =>
      if data.length = 0 then .error .zeroDivisionError
      else .ok (bs, ls)

/-- Two successive calls to `generate_batch` with identical arguments,
sharing one seeded random source.  The source is the stream of
successive `random.sample` outcomes; a completed call consumes
`batch_size / num_skips` of them, so the second call reads the stream
from that offset. -/
def generate_batch_twice (batch_size num_skips skip_window : Nat) (data : List Nat)
    (src : Nat → List Nat) :
    Except PyError (List Nat × List Nat) × Except PyError (List Nat × List Nat) :=
  (generate_batch batch_size num_skips skip_window data src,
   generate_batch batch_size num_skips skip_window data
     (fun i => src (batch_size / num_skips + i)))

/-! ### Window bookkeeping

The window state (buffer, cursor) before each loop iteration, as a pure
iteration mirroring lines 50-55 (initialization) and 62-67 (advance).
Used to state which window is active when a pair is emitted. -/

/-- One window advance, the no-error shape of `advance`. -/
def windowStep (span : Nat) (data : List Nat) (st : List Nat × Nat) : List Nat × Nat :=
  if st.2 = data.length then (pushAll span st.1 (data.take span), span)
  else (pushAll span st.1 [data.getD st.2 0], st.2 + 1)

/-- The window state before iteration `t` of the loop. -/
def windowState (span : Nat) (data : List Nat) : Nat → List Nat × Nat
  | 0 => (data.take span, span)
  | t + 1 => windowStep span data (windowState span data t)

/-- The batch entries emitted by iterations `i, i+1, ..., i+g-1`:
iteration `t` contributes `(picks t).length` copies of the center token
of its window. -/
def specBatch (skip_window : Nat) (data : List Nat) (picks : Nat → List Nat) :
    Nat → Nat → List Nat
  | 0, _ => []
  | g + 1, i =>
    (picks i).map (fun _ => (windowState (2 * skip_window + 1) data i).1.getD skip_window 0)
      ++ specBatch skip_window data picks g (i + 1)

/-- The label entries emitted by iterations `i, ..., i+g-1`: iteration
`t` contributes the tokens of its window at the drawn positions. -/
def specLabels (skip_window : Nat) (data : List Nat) (picks : Nat → List Nat) :
    Nat → Nat → List Nat
  | 0, _ => []
  | g + 1, i =>
    (picks i).map (fun cw => (windowState (2 * skip_window + 1) data i).1.getD cw 0)
      ++ specLabels skip_window data picks g (i + 1)

/-! ### The singleton embedding handle

`embed` is a process-wide global, `None` until the first call of either
accessor constructs `hub.Module(url)` (lines 8-22).  The external
encoder resource is opaque; constructing it is modelled by recording the
URL it was built from, and a counter of constructions records whether a
call re-fetched the resource. -/

/-- Modelled from the spec: the external pretrained sentence-encoder
resource (`hub.Module`) is an external collaborator; the handle is
represented by the resource identifier it was constructed from. -/
structure EmbedHandle where
  url : String
  deriving DecidableEq, Repr

/-- `hub.Module(url)`: construct the external resource handle. -/
def hubModule (url : String) : EmbedHandle := ⟨url⟩

/-- The fixed versioned resource identifier (lines 14 and 21). -/
def encoderResource : String :=
  "https://tfhub.dev/google/universal-sentence-encoder/2"

/-- The process-wide mutable state: the singleton `embed` global, plus an
observation counting how many times `hub.Module` has been constructed
(to state "no re-fetch"). -/
structure EmbedState where
  embed : Option EmbedHandle
  constructions : Nat
  deriving DecidableEq, Repr

/-- Process start: `embed = None`, nothing constructed yet. -/
def initEmbedState : EmbedState := ⟨none, 0⟩

/-- `UniversalEmbedding(x)` (lines 10-15) as an explicit state transformer.
The application of the encoder to the squeezed, string-cast input is
external computation; it is represented by the pair (handle used, raw
input), which determines it. -/
def UniversalEmbedding (x : List String) (s : EmbedState) :
    EmbedState × (EmbedHandle × List String) :=
  match s.embed with
  | none =>
    let h := hubModule encoderResource
    (⟨some h, s.constructions + 1⟩, (h, x))
  | some h => (s, (h, x))

/-- `GetEmbeddingSize()` (lines 17-22) as an explicit state transformer.
The output-shape introspection is external; it is represented by the
handle it is performed on. -/
def GetEmbeddingSize (s : EmbedState) : EmbedState × EmbedHandle :=
  match s.embed with
  | none =>
    let h := hubModule encoderResource
    (⟨some h, s.constructions + 1⟩, h)
  | some h => (s, h)

/-- A call to one of the two accessor functions. -/
inductive EmbedCall where
  | ue (x : List String)
  | ges
  deriving Repr

/-- The state effect of one accessor call. -/
def applyCall (c : EmbedCall) (s : EmbedState) : EmbedState :=
  match c with
  | .ue x => (UniversalEmbedding x s).1
  | .ges => (GetEmbeddingSize s).1

/-- The state effect of a sequence of accessor calls. -/
def runCalls (cs : List EmbedCall) (s : EmbedState) : EmbedState :=
  cs.foldl (fun s c => applyCall c s) s

/-! ### Derived views used to state properties -/

/-- The keys of the `count` table in order: the reserved `"UNK"` row
followed by the selected most-common tokens. -/
def bdKeys (words : List String) (n_words : Int) : List String :=
  "UNK" :: (mostCommon words (n_words - 1).toNat).map Prod.fst

/-- The `dictionary` built by `build_dataset`, as the fold of the
assignments `dictionary[word] = len(dictionary)` over the `count` keys. -/
def bdDict (words : List String) (n_words : Int) : List (String × Nat) :=
  (bdKeys words n_words).foldl (fun d k => setItem d k d.length) []

/-- The `reversed_dictionary` of `build_dataset`:
`dict(zip(dictionary.values(), dictionary.keys()))`. -/
def bdRev (words : List String) (n_words : Int) : List (Nat × String) :=
  (bdDict words n_words).foldl (fun d p => setItem d p.2 p.1) []

/-! ## Lemmas: the dict model -/

theorem setItem_of_not_mem {α β : Type} [DecidableEq α] (d : List (α × β)) (k : α) (v : β)
    (h : k ∉ d.map Prod.fst) : setItem d k v = d ++ [(k, v)] := by
  induction d with
  | nil => rfl
  | cons p ps ih =>
    simp only [List.map_cons, List.mem_cons] at h
    push_neg at h
    have hne : ¬ p.1 = k := fun hh => h.1 hh.symm
    simp only [setItem, if_neg hne]
    rw [ih h.2, List.cons_append]

theorem map_fst_setItem {α β : Type} [DecidableEq α] (d : List (α × β)) (k : α) (v : β) :
    (setItem d k v).map Prod.fst =
      if k ∈ d.map Prod.fst then d.map Prod.fst else d.map Prod.fst ++ [k] := by
  induction d with
  | nil => simp [setItem]
  | cons p ps ih =>
    by_cases hp : p.1 = k
    · simp [setItem, hp]
    · simp only [setItem, if_neg hp, List.map_cons, ih, List.mem_cons]
      have : ¬ k = p.1 := fun hh => hp hh.symm
      by_cases hm : k ∈ ps.map Prod.fst <;> simp [hm, this]

theorem length_setItem {α β : Type} [DecidableEq α] (d : List (α × β)) (k : α) (v : β) :
    d.length ≤ (setItem d k v).length := by
  induction d with
  | nil => simp [setItem]
  | cons p ps ih =>
    by_cases hp : p.1 = k <;> simp [setItem, hp]
    omega

theorem nodup_keys_setItem {α β : Type} [DecidableEq α] (d : List (α × β)) (k : α) (v : β)
    (h : (d.map Prod.fst).Nodup) : ((setItem d k v).map Prod.fst).Nodup := by
  rw [map_fst_setItem]
  by_cases hm : k ∈ d.map Prod.fst <;> simp [hm, h]
  exact List.Nodup.append h (List.nodup_singleton k) (by simpa using hm)

theorem mem_setItem {α β : Type} [DecidableEq α] {d : List (α × β)} {k : α} {v : β} {q : α × β}
    (h : q ∈ setItem d k v) : q = (k, v) ∨ q ∈ d := by
  induction d with
  | nil => simpa [setItem] using h
  | cons p ps ih =>
    by_cases hp : p.1 = k
    · simp only [setItem, if_pos hp, List.mem_cons] at h
      rcases h with h | h
      · exact Or.inl h
      · exact Or.inr (List.mem_cons_of_mem _ h)
    · simp only [setItem, if_neg hp, List.mem_cons] at h
      rcases h with h | h
      · exact Or.inr (h ▸ List.mem_cons_self _ _)
      · rcases ih h with h2 | h2
        · exact Or.inl h2
        · exact Or.inr (List.mem_cons_of_mem _ h2)

theorem mem_setItem_of_nodup {α β : Type} [DecidableEq α] {d : List (α × β)} {k : α} {v : β}
    {q : α × β} (hd : (d.map Prod.fst).Nodup) (h : q ∈ setItem d k v) :
    q = (k, v) ∨ (q ∈ d ∧ q.1 ≠ k) := by
  induction d with
  | nil => simp only [setItem, List.mem_singleton] at h; exact Or.inl h
  | cons p ps ih =>
    simp only [List.map_cons, List.nodup_cons] at hd
    by_cases hp : p.1 = k
    · simp only [setItem, if_pos hp, List.mem_cons] at h
      rcases h with h | h
      · exact Or.inl h
      · refine Or.inr ⟨List.mem_cons_of_mem _ h, fun hq => ?_⟩
        exact hd.1 (hp ▸ hq ▸ List.mem_map_of_mem Prod.fst h)
    · simp only [setItem, if_neg hp, List.mem_cons] at h
      rcases h with h | h
      · exact Or.inr ⟨h ▸ List.mem_cons_self _ _, h ▸ hp⟩
      · rcases ih hd.2 h with h2 | ⟨h3, h4⟩
        · exact Or.inl h2
        · exact Or.inr ⟨List.mem_cons_of_mem _ h3, h4⟩

theorem pyGet_eq_none_iff {α β : Type} [DecidableEq α] (d : List (α × β)) (k : α) :
    pyGet d k = none ↔ k ∉ d.map Prod.fst := by
  induction d with
  | nil => simp [pyGet]
  | cons p ps ih =>
    by_cases hp : p.1 = k
    · simp only [pyGet, if_pos hp, List.map_cons, List.mem_cons]
      constructor
      · intro h; exact absurd h (by simp)
      · intro h; exact absurd (Or.inl hp.symm) h
    · simp only [pyGet, if_neg hp, List.map_cons, List.mem_cons, ih]
      constructor
      · intro h hc
        rcases hc with hc | hc
        · exact hp hc.symm
        · exact h hc
      · intro h hc
        exact h (Or.inr hc)

theorem mem_of_pyGet_eq_some {α β : Type} [DecidableEq α] {d : List (α × β)} {k : α} {v : β}
    (h : pyGet d k = some v) : (k, v) ∈ d := by
  induction d with
  | nil => simp [pyGet] at h
  | cons p ps ih =>
    by_cases hp : p.1 = k
    · simp only [pyGet, if_pos hp, Option.some_inj] at h
      obtain ⟨a, b⟩ := p
      cases hp
      cases h
      exact List.mem_cons_self _ _
    · simp only [pyGet, if_neg hp] at h
      exact List.mem_cons_of_mem _ (ih h)

theorem pyGet_eq_some_of_mem {α β : Type} [DecidableEq α] {d : List (α × β)} {k : α} {v : β}
    (hd : (d.map Prod.fst).Nodup) (h : (k, v) ∈ d) : pyGet d k = some v := by
  induction d with
  | nil => simp at h
  | cons p ps ih =>
    simp only [List.map_cons, List.nodup_cons] at hd
    rcases List.mem_cons.mp h with h | h
    · simp [pyGet, ← h]
    · have hne : p.1 ≠ k := by
        intro hq
        exact hd.1 (hq ▸ (List.mem_map_of_mem Prod.fst h : (k, v).1 ∈ ps.map Prod.fst))
      simp [pyGet, hne, ih hd.2 h]

theorem exists_pyGet_of_mem_keys {α β : Type} [DecidableEq α] {d : List (α × β)} {k : α}
    (h : k ∈ d.map Prod.fst) : ∃ v, pyGet d k = some v ∧ (k, v) ∈ d := by
  induction d with
  | nil => simp at h
  | cons p ps ih =>
    by_cases hp : p.1 = k
    · exact ⟨p.2, by simp [pyGet, hp], by simp [← hp]⟩
    · rcases List.mem_cons.mp h with h | h
      · exact absurd h.symm hp
      · obtain ⟨v, hv, hm⟩ := ih h
        exact ⟨v, by simp [pyGet, hp, hv], List.mem_cons_of_mem _ hm⟩

theorem pyGet_setItem_self {α β : Type} [DecidableEq α] (d : List (α × β)) (k : α) (v : β) :
    pyGet (setItem d k v) k = some v := by
  induction d with
  | nil => simp [setItem, pyGet]
  | cons p ps ih =>
    by_cases hp : p.1 = k
    · simp [setItem, hp, pyGet]
    · simp [setItem, hp, pyGet, ih]

theorem pyGet_setItem_ne {α β : Type} [DecidableEq α] (d : List (α × β)) (k a : α) (v : β)
    (h : a ≠ k) : pyGet (setItem d k v) a = pyGet d a := by
  induction d with
  | nil =>
    have h2 : ¬ k = a := fun hh => h hh.symm
    simp [setItem, pyGet, h2]
  | cons p ps ih =>
    by_cases hp : p.1 = k
    · have h2 : ¬ k = a := fun hh => h hh.symm
      have h3 : ¬ p.1 = a := by rw [hp]; exact h2
      simp [setItem, hp, pyGet, h2, h3]
    · by_cases ha : p.1 = a
      · simp [setItem, hp, pyGet, ha, h]
      · simp [setItem, hp, pyGet, ha, ih]

/-- Folding `dictionary[k] = len(dictionary)` over fresh, pairwise
distinct keys appends the keys enumerated from the current size. -/
theorem foldl_setItem_enum (ks : List String) :
    ∀ d : List (String × Nat), ks.Nodup → (∀ k ∈ ks, k ∉ d.map Prod.fst) →
      ks.foldl (fun d k => setItem d k d.length) d
        = d ++ (List.enumFrom d.length ks).map (fun q => (q.2, q.1)) := by
  induction ks with
  | nil => intro d _ _; simp [List.enumFrom]
  | cons k ks ih =>
    intro d hnd hfresh
    simp only [List.foldl_cons]
    rw [setItem_of_not_mem d k d.length (hfresh k (List.mem_cons_self _ _))]
    rw [ih (d ++ [(k, d.length)]) hnd.of_cons ?fresh]
    case fresh =>
      intro k2 hk2
      simp only [List.map_append, List.mem_append, List.map_cons, List.map_nil,
        List.mem_singleton]
      rintro (h | h)
      · exact hfresh k2 (List.mem_cons_of_mem _ hk2) h
      · exact (List.nodup_cons.mp hnd).1 (h ▸ hk2)
    simp [List.enumFrom, List.append_assoc]

/-- Folding `d[p.1] = p.2` over pairs with fresh, pairwise distinct keys
appends the pairs. -/
theorem foldl_setItem_pairs {α β : Type} [DecidableEq α] (ps : List (α × β)) :
    ∀ d : List (α × β), (ps.map Prod.fst).Nodup → (∀ p ∈ ps, p.1 ∉ d.map Prod.fst) →
      ps.foldl (fun d q => setItem d q.1 q.2) d = d ++ ps := by
  induction ps with
  | nil => intro d _ _; simp
  | cons p ps ih =>
    intro d hnd hfresh
    simp only [List.map_cons, List.nodup_cons] at hnd
    simp only [List.foldl_cons]
    rw [setItem_of_not_mem d p.1 p.2 (hfresh p (List.mem_cons_self _ _))]
    rw [ih (d ++ [(p.1, p.2)]) hnd.2 ?fresh]
    case fresh =>
      intro q hq
      simp only [List.map_append, List.mem_append, List.map_cons, List.map_nil,
        List.mem_singleton]
      rintro (h | h)
      · exact hfresh q (List.mem_cons_of_mem _ hq) h
      · exact hnd.1 (h ▸ List.mem_map_of_mem Prod.fst hq)
    simp [List.append_assoc]

/-! ## Lemmas: `distinctWords`, `sortDesc`, `mostCommon` -/

theorem mem_distinctWords {x : String} : ∀ {l : List String}, x ∈ distinctWords l ↔ x ∈ l := by
  intro l
  induction l with
  | nil => simp [distinctWords]
  | cons w ws ih =>
    simp only [distinctWords, List.mem_cons, List.mem_filter, ih]
    constructor
    · rintro (h | ⟨h, _⟩)
      · exact Or.inl h
      · exact Or.inr h
    · rintro (h | h)
      · exact Or.inl h
      · by_cases hw : x = w
        · exact Or.inl hw
        · exact Or.inr ⟨h, by simpa using hw⟩

theorem distinctWords_nodup (l : List String) : (distinctWords l).Nodup := by
  induction l with
  | nil => simp [distinctWords]
  | cons w ws ih =>
    simp only [distinctWords, List.nodup_cons]
    refine ⟨fun h => ?_, ih.filter _⟩
    simp only [List.mem_filter, decide_eq_true_eq] at h
    exact h.2 rfl

theorem insertDesc_perm (x : String × Nat) (l : List (String × Nat)) :
    (insertDesc x l).Perm (x :: l) := by
  induction l with
  | nil => exact List.Perm.refl _
  | cons y ys ih =>
    by_cases h : x.2 < y.2
    · simp only [insertDesc, if_pos h]
      exact (ih.cons y).trans (List.Perm.swap x y ys)
    · simp only [insertDesc, if_neg h]
      exact List.Perm.refl _

theorem sortDesc_perm (l : List (String × Nat)) : (sortDesc l).Perm l := by
  induction l with
  | nil => exact List.Perm.refl _
  | cons x xs ih =>
    exact (insertDesc_perm x (sortDesc xs)).trans (ih.cons x)

theorem length_insertDesc (x : String × Nat) (l : List (String × Nat)) :
    (insertDesc x l).length = l.length + 1 :=
  (insertDesc_perm x l).length_eq

theorem length_sortDesc (l : List (String × Nat)) : (sortDesc l).length = l.length :=
  (sortDesc_perm l).length_eq

theorem map_fst_pairing (l : List String) (f : String → Nat) :
    (l.map (fun w => (w, f w))).map Prod.fst = l := by
  induction l with
  | nil => rfl
  | cons a as ih => simp [ih]

/-- The keys of `most_common(n)` are distinct. -/
theorem mostCommon_keys_nodup (words : List String) (n : Nat) :
    ((mostCommon words n).map Prod.fst).Nodup := by
  have hpre : (((distinctWords words).map (fun w => (w, words.count w))).map Prod.fst).Nodup := by
    rw [map_fst_pairing]
    exact distinctWords_nodup words
  have hsorted : ((sortDesc ((distinctWords words).map (fun w => (w, words.count w)))).map
      Prod.fst).Nodup :=
    ((sortDesc_perm _).map Prod.fst).symm.nodup hpre
  exact ((List.take_sublist n _).map Prod.fst).nodup hsorted

/-- Every key of `most_common(n)` is a token of `words`. -/
theorem mostCommon_keys_subset (words : List String) (n : Nat) {x : String}
    (h : x ∈ (mostCommon words n).map Prod.fst) : x ∈ words := by
  have h2 : x ∈ (sortDesc ((distinctWords words).map (fun w => (w, words.count w)))).map
      Prod.fst := ((List.take_sublist n _).map Prod.fst).subset h
  have h3 : x ∈ ((distinctWords words).map (fun w => (w, words.count w))).map Prod.fst :=
    ((sortDesc_perm _).map Prod.fst).subset h2
  rw [map_fst_pairing] at h3
  exact mem_distinctWords.mp h3

/-- The length of `most_common(n)`: `min n distinct_token_count`. -/
theorem mostCommon_length (words : List String) (n : Nat) :
    (mostCommon words n).length = min n (distinctWords words).length := by
  rw [mostCommon, List.length_take, length_sortDesc, List.length_map]

/-! ## Lemmas: structure of `build_dataset` -/

theorem map_fst_intCast (l : List (String × Nat)) :
    (l.map (fun p => (p.1, (p.2 : Int)))).map Prod.fst = l.map Prod.fst := by
  induction l with
  | nil => rfl
  | cons a as ih => simp [ih]

/-- `build_dataset` always succeeds, and its components are the encoded
data, the patched count table, `bdDict` and `bdRev`. -/
theorem build_dataset_eq (words : List String) (n_words : Int) :
    build_dataset words n_words =
      .ok (words.map (fun w => pyGetD (bdDict words n_words) w 0),
        ("UNK", ((words.map (fun w => pyGetD (bdDict words n_words) w 0)).countP
            (fun i => i == 0) : Int)) ::
          (mostCommon words (n_words - 1).toNat).map (fun p => (p.1, (p.2 : Int))),
        bdDict words n_words, bdRev words n_words) := by
  have hdict : ((("UNK", (-1 : Int)) ::
      (mostCommon words (n_words - 1).toNat).map (fun p => (p.1, (p.2 : Int)))).foldl
        (fun d p => setItem d p.1 d.length) ([] : List (String × Nat)))
      = bdDict words n_words := by
    rw [bdDict, bdKeys]
    have hkeys : ("UNK" :: (mostCommon words (n_words - 1).toNat).map Prod.fst)
        = (("UNK", (-1 : Int)) :: (mostCommon words (n_words - 1).toNat).map
            (fun p => (p.1, (p.2 : Int)))).map Prod.fst := by
      simp only [List.map_cons, map_fst_intCast]
    rw [hkeys, List.foldl_map]
  simp only [build_dataset, bdRev, hdict, List.tail_cons]

theorem bdKeys_nodup (words : List String) (n_words : Int) (h : "UNK" ∉ words) :
    (bdKeys words n_words).Nodup := by
  rw [bdKeys, List.nodup_cons]
  exact ⟨fun hm => h (mostCommon_keys_subset words _ hm), mostCommon_keys_nodup words _⟩

/-- When the literal token `"UNK"` does not occur in `words`, no `count`
key collides with the reserved row, and the dictionary enumerates the
`count` keys with IDs `0, 1, 2, ...`. -/
theorem bdDict_eq_enum (words : List String) (n_words : Int) (h : "UNK" ∉ words) :
    bdDict words n_words
      = (List.enumFrom 0 (bdKeys words n_words)).map (fun q => (q.2, q.1)) := by
  rw [bdDict]
  have := foldl_setItem_enum (bdKeys words n_words) [] (bdKeys_nodup words n_words h)
    (by simp)
  simpa using this

theorem bdDict_keys (words : List String) (n_words : Int) (h : "UNK" ∉ words) :
    (bdDict words n_words).map Prod.fst = bdKeys words n_words := by
  rw [bdDict_eq_enum words n_words h, List.map_map]
  have : (Prod.fst ∘ fun q : Nat × String => (q.2, q.1)) = Prod.snd := rfl
  rw [this, List.enumFrom_map_snd]

theorem bdDict_values (words : List String) (n_words : Int) (h : "UNK" ∉ words) :
    (bdDict words n_words).map Prod.snd = List.range' 0 (bdKeys words n_words).length := by
  rw [bdDict_eq_enum words n_words h, List.map_map]
  have : (Prod.snd ∘ fun q : Nat × String => (q.2, q.1)) = Prod.fst := rfl
  rw [this, List.enumFrom_map_fst]

theorem bdRev_eq_swap (words : List String) (n_words : Int) (h : "UNK" ∉ words) :
    bdRev words n_words = (bdDict words n_words).map (fun p => (p.2, p.1)) := by
  have hfold : bdRev words n_words
      = ((bdDict words n_words).map (fun p => (p.2, p.1))).foldl
          (fun d q => setItem d q.1 q.2) [] := by
    rw [bdRev, List.foldl_map]
  rw [hfold]
  have hnd : (((bdDict words n_words).map (fun p => (p.2, p.1))).map Prod.fst).Nodup := by
    rw [List.map_map]
    have : (Prod.fst ∘ fun p : String × Nat => (p.2, p.1)) = Prod.snd := rfl
    rw [this, bdDict_values words n_words h]
    exact List.nodup_range' _ _
  have := foldl_setItem_pairs ((bdDict words n_words).map (fun p => (p.2, p.1))) [] hnd
    (by simp)
  simpa using this

/-! ## Lemmas: the shadowed `"UNK"` row (duplicate key case) -/

/-- Values written by the dictionary fold equal the current size, so once
the dict is nonempty and free of zero values it stays so. -/
theorem dictfold_nonzero (ks : List String) :
    ∀ d : List (String × Nat), 1 ≤ d.length → (∀ p ∈ d, p.2 ≠ 0) →
      ∀ p ∈ ks.foldl (fun d k => setItem d k d.length) d, p.2 ≠ 0 := by
  induction ks with
  | nil => intro d _ h p hp; exact h p hp
  | cons k ks ih =>
    intro d hlen h p hp
    simp only [List.foldl_cons] at hp
    refine ih (setItem d k d.length) (le_trans hlen (length_setItem d k d.length)) ?_ p hp
    intro q hq
    rcases mem_setItem hq with h2 | h2
    · rw [h2]; show d.length ≠ 0; omega
    · exact h q h2

/-- The dictionary fold over `count` keys containing `"UNK"` reassigns
`"UNK"` a positive ID, leaving no zero value anywhere. -/
theorem dictfold_unk_shadow (ks : List String) :
    ∀ d : List (String × Nat), 1 ≤ d.length → (d.map Prod.fst).Nodup →
      (∀ p ∈ d, p.2 = 0 → p.1 = "UNK") → "UNK" ∈ d.map Prod.fst →
      1 ≤ (ks.foldl (fun d k => setItem d k d.length) d).length
        ∧ ((ks.foldl (fun d k => setItem d k d.length) d).map Prod.fst).Nodup
        ∧ "UNK" ∈ (ks.foldl (fun d k => setItem d k d.length) d).map Prod.fst
        ∧ (∀ p ∈ ks.foldl (fun d k => setItem d k d.length) d, p.2 = 0 → p.1 = "UNK")
        ∧ ("UNK" ∈ ks → ∀ p ∈ ks.foldl (fun d k => setItem d k d.length) d, p.2 ≠ 0) := by
  induction ks with
  | nil =>
    intro d h1 h2 h3 h4
    exact ⟨h1, h2, h4, h3, fun h => absurd h (List.not_mem_nil _)⟩
  | cons k ks ih =>
    intro d h1 h2 h3 h4
    simp only [List.foldl_cons]
    have hlen2 : 1 ≤ (setItem d k d.length).length :=
      le_trans h1 (length_setItem d k d.length)
    have hnd2 : ((setItem d k d.length).map Prod.fst).Nodup := nodup_keys_setItem d k _ h2
    have hzero2 : ∀ p ∈ setItem d k d.length, p.2 = 0 → p.1 = "UNK" := by
      intro p hp hz
      rcases mem_setItem_of_nodup h2 hp with h5 | ⟨h5, _⟩
      · exfalso
        rw [h5] at hz
        have h6 : d.length = 0 := hz
        omega
      · exact h3 p h5 hz
    have hunk2 : "UNK" ∈ (setItem d k d.length).map Prod.fst := by
      rw [map_fst_setItem]
      by_cases hm : k ∈ d.map Prod.fst
      · simpa [hm] using h4
      · simp only [if_neg hm, List.mem_append]
        exact Or.inl h4
    obtain ⟨g1, g2, g3, g4, g5⟩ := ih (setItem d k d.length) hlen2 hnd2 hzero2 hunk2
    refine ⟨g1, g2, g3, g4, ?_⟩
    intro hmem p hp
    rcases List.mem_cons.mp hmem with hk | hk
    · refine dictfold_nonzero ks (setItem d k d.length) hlen2 ?_ p hp
      intro q hq
      rcases mem_setItem_of_nodup h2 hq with h5 | ⟨h5, h6⟩
      · rw [h5]; show d.length ≠ 0; omega
      · intro hz
        exact h6 ((h3 q h5 hz).trans hk)
    · exact g5 hk p hp

/-- If `0` never occurs as a dictionary value, the reversed dictionary
has no entry with key `0`. -/
theorem pyGet_foldl_rev_none (ps : List (String × Nat)) :
    ∀ d : List (Nat × String), (0 : Nat) ∉ d.map Prod.fst → (∀ p ∈ ps, p.2 ≠ 0) →
      pyGet (ps.foldl (fun d p => setItem d p.2 p.1) d) 0 = none := by
  induction ps with
  | nil =>
    intro d h _
    exact (pyGet_eq_none_iff d 0).mpr h
  | cons p ps ih =>
    intro d h hz
    simp only [List.foldl_cons]
    refine ih (setItem d p.2 p.1) ?_ (fun q hq => hz q (List.mem_cons_of_mem _ hq))
    intro hm
    rw [map_fst_setItem] at hm
    by_cases hm2 : p.2 ∈ d.map Prod.fst
    · rw [if_pos hm2] at hm; exact h hm
    · rw [if_neg hm2] at hm
      rcases List.mem_append.mp hm with hm3 | hm3
      · exact h hm3
      · exact hz p (List.mem_cons_self _ _) (List.mem_singleton.mp hm3).symm

/-! ## Lemmas: `generate_batch` -/

theorem emitPairs_error_eq {sw : Nat} {b : List Nat} :
    ∀ {ws : List Nat} {e : PyError}, emitPairs sw b ws = .error e → e = .indexError := by
  intro ws
  induction ws with
  | nil => intro e h; simp [emitPairs] at h
  | cons cw rest ih =>
    intro e h
    by_cases h1 : sw < b.length
    · by_cases h2 : cw < b.length
      · simp only [emitPairs, if_pos h1, if_pos h2] at h
        rcases h3 : emitPairs sw b rest with e2 | v
        · rw [h3] at h
          simp only [Except.error.injEq] at h
          subst h
          exact ih h3
        · obtain ⟨bs, ls⟩ := v
          rw [h3] at h
          simp at h
      · simp only [emitPairs, if_pos h1, if_neg h2, Except.error.injEq] at h
        exact h.symm
    · simp only [emitPairs, if_neg h1, Except.error.injEq] at h
      exact h.symm

theorem emitPairs_ok (sw : Nat) (b : List Nat) :
    ∀ ws : List Nat, sw < b.length → (∀ cw ∈ ws, cw < b.length) →
      emitPairs sw b ws
        = .ok (ws.map (fun _ => b.getD sw 0), ws.map (fun cw => b.getD cw 0)) := by
  intro ws
  induction ws with
  | nil => intro _ _; rfl
  | cons cw rest ih =>
    intro h1 h2
    have hcw : cw < b.length := h2 cw (List.mem_cons_self _ _)
    rw [List.map_cons, List.map_cons]
    simp only [emitPairs, if_pos h1, if_pos hcw,
      ih h1 (fun c hc => h2 c (List.mem_cons_of_mem _ hc))]

theorem advance_error_eq {span : Nat} {data b : List Nat} {di : Nat} {e : PyError}
    (h : advance span data b di = .error e) : e = .indexError := by
  unfold advance at h
  by_cases h1 : di = data.length
  · rw [if_pos h1] at h; simp at h
  · rw [if_neg h1] at h
    by_cases h2 : di < data.length
    · rw [if_pos h2] at h; simp at h
    · rw [if_neg h2] at h
      simp only [Except.error.injEq] at h
      exact h.symm

theorem advance_eq_windowStep {span : Nat} {data b : List Nat} {di : Nat}
    (h : di ≤ data.length) :
    advance span data b di = .ok (windowStep span data (b, di)) := by
  unfold advance windowStep
  by_cases h1 : di = data.length
  · simp [h1]
  · have h2 : di < data.length := lt_of_le_of_ne h h1
    simp [h1, h2]

theorem gbLoop_error_eq {sw span : Nat} {data : List Nat} {picks : Nat → List Nat} :
    ∀ {g i : Nat} {b : List Nat} {di : Nat} {e : PyError},
      gbLoop sw span data picks g i b di = .error e → e = .indexError := by
  intro g
  induction g with
  | zero => intro i b di e h; simp [gbLoop] at h
  | succ g ih =>
    intro i b di e h
    simp only [gbLoop] at h
    rcases h1 : emitPairs sw b (picks i) with e2 | v
    · rw [h1] at h
      simp only [Except.error.injEq] at h
      subst h
      exact emitPairs_error_eq h1
    · obtain ⟨bs, ls⟩ := v
      rw [h1] at h
      rcases h2 : advance span data b di with e2 | w
      · rw [h2] at h
        simp only [Except.error.injEq] at h
        subst h
        exact advance_error_eq h2
      · obtain ⟨b2, di2⟩ := w
        rw [h2] at h
        simp only [Except.error.injEq] at h
        rcases h3 : gbLoop sw span data picks g (i + 1) b2 di2 with e2 | u
        · rw [h3] at h
          simp only [Except.error.injEq] at h
          subst h
          exact ih h3
        · obtain ⟨bs2, ls2, df⟩ := u
          rw [h3] at h
          simp at h

/-- Invariants of the window state under valid sizes: the buffer always
holds `span` tokens and the cursor stays in `[span, len(data)]`. -/
theorem windowState_invariant (span : Nat) (data : List Nat) (hspan : 1 ≤ span)
    (hlen : span ≤ data.length) :
    ∀ t, (windowState span data t).1.length = span
      ∧ span ≤ (windowState span data t).2 ∧ (windowState span data t).2 ≤ data.length := by
  intro t
  induction t with
  | zero =>
    refine ⟨?_, le_refl span, hlen⟩
    simp only [windowState, List.length_take]
    omega
  | succ t ih =>
    obtain ⟨ih1, ih2, ih3⟩ := ih
    have heq : windowState span data (t + 1) = windowStep span data (windowState span data t) :=
      rfl
    rw [heq, windowStep]
    by_cases h1 : (windowState span data t).2 = data.length
    · rw [if_pos h1]
      refine ⟨?_, le_refl span, hlen⟩
      simp only [pushAll, List.length_drop, List.length_append, List.length_take, ih1]
      omega
    · rw [if_neg h1]
      have h2 : (windowState span data t).2 < data.length := lt_of_le_of_ne ih3 h1
      refine ⟨?_, by omega, by omega⟩
      simp only [pushAll, List.length_drop, List.length_append, List.length_singleton, ih1]
      omega

/-- The loop, started on the window state of iteration `i`, succeeds and
emits exactly the `specBatch` / `specLabels` streams. -/
theorem gbLoop_ok (sw : Nat) (data : List Nat) (picks : Nat → List Nat)
    (hlen : 2 * sw + 1 ≤ data.length)
    (hmem : ∀ t, ∀ cw ∈ picks t, cw < 2 * sw + 1) :
    ∀ g i, ∃ df,
      gbLoop sw (2 * sw + 1) data picks g i (windowState (2 * sw + 1) data i).1
          (windowState (2 * sw + 1) data i).2
        = .ok (specBatch sw data picks g i, specLabels sw data picks g i, df) := by
  intro g
  induction g with
  | zero => intro i; exact ⟨(windowState (2 * sw + 1) data i).2, rfl⟩
  | succ g ih =>
    intro i
    obtain ⟨inv1, inv2, inv3⟩ := windowState_invariant (2 * sw + 1) data (by omega) hlen i
    have hsw : sw < (windowState (2 * sw + 1) data i).1.length := by rw [inv1]; omega
    have hcw : ∀ cw ∈ picks i, cw < (windowState (2 * sw + 1) data i).1.length := by
      intro cw hc
      rw [inv1]
      exact hmem i cw hc
    have hemit := emitPairs_ok sw (windowState (2 * sw + 1) data i).1 (picks i) hsw hcw
    have hadv : advance (2 * sw + 1) data (windowState (2 * sw + 1) data i).1
        (windowState (2 * sw + 1) data i).2
        = .ok ((windowState (2 * sw + 1) data (i + 1)).1,
            (windowState (2 * sw + 1) data (i + 1)).2) := by
      rw [advance_eq_windowStep inv3]
      rfl
    obtain ⟨df, hrec⟩ := ih (i + 1)
    refine ⟨df, ?_⟩
    simp only [gbLoop, hemit, hadv, hrec]
    rfl

theorem specBatch_length (sw : Nat) (data : List Nat) (picks : Nat → List Nat) (ns : Nat)
    (hlen : ∀ t, (picks t).length = ns) :
    ∀ g i, (specBatch sw data picks g i).length = g * ns := by
  intro g
  induction g with
  | zero => intro i; simp [specBatch]
  | succ g ih =>
    intro i
    simp only [specBatch, List.length_append, List.length_map, hlen i, ih (i + 1)]
    ring

theorem specLabels_length (sw : Nat) (data : List Nat) (picks : Nat → List Nat) (ns : Nat)
    (hlen : ∀ t, (picks t).length = ns) :
    ∀ g i, (specLabels sw data picks g i).length = g * ns := by
  intro g
  induction g with
  | zero => intro i; simp [specLabels]
  | succ g ih =>
    intro i
    simp only [specLabels, List.length_append, List.length_map, hlen i, ih (i + 1)]
    ring

/-- Entry `k` of the emitted streams comes from loop iteration `k / ns`:
the batch entry is that iteration's window center, the label entry is
that window at one of the drawn positions. -/
theorem spec_getD (sw : Nat) (data : List Nat) (picks : Nat → List Nat) (ns : Nat)
    (hns : 0 < ns) (hlen : ∀ t, (picks t).length = ns) :
    ∀ g i k, k < g * ns →
      (specBatch sw data picks g i).getD k 0
          = (windowState (2 * sw + 1) data (i + k / ns)).1.getD sw 0
        ∧ ∃ cw ∈ picks (i + k / ns),
            (specLabels sw data picks g i).getD k 0
              = (windowState (2 * sw + 1) data (i + k / ns)).1.getD cw 0 := by
  intro g
  induction g with
  | zero =>
    intro i k hk
    exact absurd hk (by omega)
  | succ g ih =>
    intro i k hk
    by_cases hsmall : k < ns
    · have hdiv : k / ns = 0 := Nat.div_eq_of_lt hsmall
      have hklen : k < (picks i).length := by rw [hlen i]; exact hsmall
      simp only [hdiv, Nat.add_zero]
      constructor
      · rw [specBatch, List.getD_append _ _ _ _ (by simpa using hklen),
          List.getD_eq_getElem _ _ (by simpa using hklen), List.getElem_map]
      · refine ⟨(picks i).get ⟨k, hklen⟩, List.get_mem _ _ _, ?_⟩
        rw [specLabels, List.getD_append _ _ _ _ (by simpa using hklen),
          List.getD_eq_getElem _ _ (by simpa using hklen), List.getElem_map]
        rfl
    · have hns2 : ns ≤ k := le_of_not_lt hsmall
      have hk2 : k - ns < g * ns := by
        have hk3 : k < g * ns + ns := by
          have : (g + 1) * ns = g * ns + ns := by ring
          omega
        omega
      have hdiv : k / ns = (k - ns) / ns + 1 := by
        have hsub : k - ns + ns = k := by omega
        conv_lhs => rw [← hsub]
        rw [Nat.add_div_right _ hns]
      have harith : i + k / ns = (i + 1) + (k - ns) / ns := by
        rw [hdiv]
        omega
      obtain ⟨ihb, cw, hcwmem, ihl⟩ := ih (i + 1) (k - ns) hk2
      constructor
      · rw [specBatch, List.getD_append_right _ _ _ _ (by simp [hlen i]; omega)]
        simpa [hlen i, harith] using ihb
      · refine ⟨cw, by rw [harith]; exact hcwmem, ?_⟩
        rw [specLabels, List.getD_append_right _ _ _ _ (by simp [hlen i]; omega)]
        simpa [hlen i, harith] using ihl

/-! ## Claim theorems: `build_dataset` -/

/-- C2 (counterexample): for `words = ["UNK"]`, `n_words = 2` the literal
token `"UNK"` is selected by `most_common`, overwrites the reserved row,
and the returned dictionary has 1 entry instead of
`min(n_words, distinct+1) = 2`, with `"UNK"` mapped to 1 and ID 0 absent
— refuting the claim as stated. -/
theorem build_dataset_dict_size_cex :
    Except.map (fun r => (r.2.2.1.length, pyGet r.2.2.1 "UNK")) (build_dataset ["UNK"] 2)
        = .ok (1, some 1)
      ∧ min (Int.toNat 2) ((distinctWords ["UNK"]).length + 1) = 2
      ∧ (1 : Nat) ≠ 2 ∧ some (1 : Nat) ≠ some 0 :=
  ⟨rfl, rfl, by decide, by decide⟩

/-- C2 (amended): for every `n_words ≥ 1` and every token sequence in
which the literal string `"UNK"` does not occur, `build_dataset` returns
a dictionary with exactly `min(n_words, distinct_token_count + 1)`
entries, in which ID 0 is present as the image of the key `"UNK"`. -/
theorem build_dataset_dict_size (words : List String) (n_words : Int)
    (h1 : 1 ≤ n_words) (h2 : "UNK" ∉ words) :
    ∃ data count dict rev,
      build_dataset words n_words = .ok (data, count, dict, rev)
        ∧ dict.length = min n_words.toNat ((distinctWords words).length + 1)
        ∧ pyGet dict "UNK" = some 0 := by
  refine ⟨_, _, _, _, build_dataset_eq words n_words, ?_, ?_⟩
  · rw [bdDict_eq_enum words n_words h2, List.length_map, List.enumFrom_length, bdKeys,
      List.length_cons, List.length_map, mostCommon_length]
    omega
  · rw [bdDict_eq_enum words n_words h2, bdKeys]
    simp [List.enumFrom, pyGet]

/-- C2 (witness): the amended size law at `words = ["a","b","a"]`,
`n_words = 5`. -/
theorem build_dataset_dict_size_witness :
    ∃ data count dict rev,
      build_dataset ["a", "b", "a"] 5 = .ok (data, count, dict, rev)
        ∧ dict.length = min (Int.toNat 5) ((distinctWords ["a", "b", "a"]).length + 1)
        ∧ pyGet dict "UNK" = some 0 :=
  build_dataset_dict_size ["a", "b", "a"] 5 (by decide) (by decide)

/-- C3 (counterexample): on `words = ["a","b","a","c","a","b"]`,
`n_words = 3` the stored UNK frequency `count[0][1]` is `1` (the single
`"c"` occurrence), not `2` as the claim states. -/
theorem build_dataset_example_cex :
    Except.map (fun r => r.2.1.headD ("", 0)) (build_dataset ["a", "b", "a", "c", "a", "b"] 3)
        = .ok ("UNK", 1)
      ∧ (("UNK", (1 : Int)) : String × Int) ≠ ("UNK", 2) :=
  ⟨rfl, by decide⟩

/-- C3 (amended): for `words = ["a","b","a","c","a","b"]`, `n_words = 3`,
`build_dataset` returns `dictionary = {"UNK": 0, "a": 1, "b": 2}`, the
encoding `[1,2,1,0,1,2]`, and stored UNK frequency `count[0][1] = 1`. -/
theorem build_dataset_example :
    build_dataset ["a", "b", "a", "c", "a", "b"] 3
      = .ok ([1, 2, 1, 0, 1, 2], [("UNK", 1), ("a", 3), ("b", 2)],
          [("UNK", 0), ("a", 1), ("b", 2)], [(0, "UNK"), (1, "a"), (2, "b")]) := rfl

/-- C5 (counterexample): for `words = ["UNK","a"]`, `n_words = 3` the
dictionary maps `"UNK"` to ID 1, but the reversed dictionary maps 1 back
to `"a"`, so the round trip fails. -/
theorem build_dataset_roundtrip_cex :
    Except.map (fun r => (pyGet r.2.2.1 "UNK", pyGet r.2.2.2 1))
        (build_dataset ["UNK", "a"] 3) = .ok (some 1, some "a")
      ∧ some "a" ≠ some "UNK" :=
  ⟨rfl, by decide⟩

/-- C5 (amended): for every `n_words ≥ 1` and every token sequence not
containing the literal string `"UNK"`, every token `t` with assigned ID
`i` in the returned dictionary satisfies `reversed_dictionary[i] = t`. -/
theorem build_dataset_roundtrip (words : List String) (n_words : Int)
    (h1 : 1 ≤ n_words) (h2 : "UNK" ∉ words) :
    ∃ data count dict rev,
      build_dataset words n_words = .ok (data, count, dict, rev)
        ∧ ∀ t i, pyGet dict t = some i → pyGet rev i = some t := by
  refine ⟨_, _, _, _, build_dataset_eq words n_words, ?_⟩
  intro t i hti
  have hmem : (t, i) ∈ bdDict words n_words := mem_of_pyGet_eq_some hti
  have hrev : bdRev words n_words = (bdDict words n_words).map (fun p => (p.2, p.1)) :=
    bdRev_eq_swap words n_words h2
  have hmem2 : (i, t) ∈ bdRev words n_words := by
    rw [hrev]
    exact List.mem_map_of_mem _ hmem
  have hnd : ((bdRev words n_words).map Prod.fst).Nodup := by
    rw [hrev, List.map_map]
    have hcomp : (Prod.fst ∘ fun p : String × Nat => (p.2, p.1)) = Prod.snd := rfl
    rw [hcomp, bdDict_values words n_words h2]
    exact List.nodup_range' _ _
  exact pyGet_eq_some_of_mem hnd hmem2

/-- C5 (witness): the amended round trip at `words = ["a","b"]`,
`n_words = 3`. -/
theorem build_dataset_roundtrip_witness :
    ∃ data count dict rev,
      build_dataset ["a", "b"] 3 = .ok (data, count, dict, rev)
        ∧ ∀ t i, pyGet dict t = some i → pyGet rev i = some t :=
  build_dataset_roundtrip ["a", "b"] 3 (by decide) (by decide)

/-- C6 (counterexample): `build_dataset` has no `n_words < 1` guard: at
`n_words = 0 < 1` it raises nothing and returns normally. -/
theorem build_dataset_no_guard_cex :
    (0 : Int) < 1
      ∧ build_dataset ["a"] 0 = .ok ([0], [("UNK", 1)], [("UNK", 0)], [(0, "UNK")]) :=
  ⟨by decide, rfl⟩

/-- C6 (amended): `build_dataset(words, n_words)` never fails, for any
`n_words`; for `n_words < 1` it behaves exactly as for `n_words = 1`
(`most_common(n_words - 1)` returns the empty list either way). -/
theorem build_dataset_never_fails (words : List String) (n_words : Int) :
    (∃ r, build_dataset words n_words = .ok r)
      ∧ (n_words < 1 → build_dataset words n_words = build_dataset words 1) := by
  constructor
  · exact ⟨_, build_dataset_eq words n_words⟩
  · intro h
    have htn : (n_words - 1).toNat = ((1 : Int) - 1).toNat := by omega
    simp only [build_dataset]
    rw [htn]

/-- C6 (witness): at `words = ["a"]`, `n_words = 0 < 1`, the result is a
success and coincides with the `n_words = 1` result. -/
theorem build_dataset_never_fails_witness :
    (0 : Int) < 1 ∧ build_dataset ["a"] 0 = build_dataset ["a"] 1
      ∧ ∃ r, build_dataset ["a"] 0 = .ok r :=
  ⟨by decide, (build_dataset_never_fails ["a"] 0).2 (by decide),
    (build_dataset_never_fails ["a"] 0).1⟩

/-- C10: whenever the literal string `"UNK"` occurs in `words` and is
among the `n_words - 1` tokens selected by `most_common`, the returned
dictionary maps `"UNK"` to a nonzero ID, no key maps to ID 0 (the
reserved `"UNK" -> 0` entry is overwritten), and the reversed
dictionary has no entry for ID 0. -/
theorem build_dataset_unk_shadowed (words : List String) (n_words : Int)
    (h1 : "UNK" ∈ words)
    (h2 : "UNK" ∈ (mostCommon words (n_words - 1).toNat).map Prod.fst) :
    ∃ data count dict rev,
      build_dataset words n_words = .ok (data, count, dict, rev)
        ∧ (∃ i, pyGet dict "UNK" = some i ∧ i ≠ 0)
        ∧ (∀ p ∈ dict, p.2 ≠ 0)
        ∧ pyGet rev 0 = none := by
  have hfold : bdDict words n_words
      = ((mostCommon words (n_words - 1).toNat).map Prod.fst).foldl
          (fun d k => setItem d k d.length) [("UNK", 0)] := by
    rw [bdDict, bdKeys, List.foldl_cons]
    rfl
  obtain ⟨g1, g2, g3, g4, g5⟩ := dictfold_unk_shadow
      ((mostCommon words (n_words - 1).toNat).map Prod.fst) [("UNK", 0)]
      (by simp) (by simp)
      (by intro p hp hz; simp only [List.mem_singleton] at hp; rw [hp]) (by simp)
  have hnz : ∀ p ∈ bdDict words n_words, p.2 ≠ 0 := by
    rw [hfold]
    exact g5 h2
  have hunk : "UNK" ∈ (bdDict words n_words).map Prod.fst := by
    rw [hfold]
    exact g3
  refine ⟨_, _, _, _, build_dataset_eq words n_words, ?_, hnz, ?_⟩
  · obtain ⟨v, hv, hvm⟩ := exists_pyGet_of_mem_keys hunk
    exact ⟨v, hv, hnz _ hvm⟩
  · rw [bdRev]
    exact pyGet_foldl_rev_none (bdDict words n_words) [] (by simp) hnz

/-- C10 (witness): at `words = ["UNK","a"]`, `n_words = 3`, the token
`"UNK"` is selected, its reserved entry is shadowed, and ID 0 vanishes
from both mappings. -/
theorem build_dataset_unk_shadowed_witness :
    ∃ data count dict rev,
      build_dataset ["UNK", "a"] 3 = .ok (data, count, dict, rev)
        ∧ (∃ i, pyGet dict "UNK" = some i ∧ i ≠ 0)
        ∧ (∀ p ∈ dict, p.2 ≠ 0)
        ∧ pyGet rev 0 = none :=
  build_dataset_unk_shadowed ["UNK", "a"] 3 (by decide) (by decide)

/-! ## Claim theorems: `generate_batch` -/

/-- C1: for every call to `generate_batch` with valid arguments
(`batch_size` divisible by `num_skips`, `num_skips ≤ 2*skip_window`,
`len(data) ≥ 2*skip_window+1`) and every choice of randomly sampled
context positions (a sample of `num_skips` positions drawn from the
window positions other than the center), each emitted pair satisfies:
`batch[k]` is the center token of the window active at emission time
(iteration `k / num_skips`), and `labels[k]` is the token of that window
at a position within `skip_window` of the center, excluding the center
itself. -/
theorem generate_batch_pairs (batch_size num_skips skip_window : Nat) (data : List Nat)
    (picks : Nat → List Nat)
    (h1 : 1 ≤ num_skips) (h2 : batch_size % num_skips = 0)
    (h3 : num_skips ≤ 2 * skip_window) (h4 : 2 * skip_window + 1 ≤ data.length)
    (hplen : ∀ t, (picks t).length = num_skips)
    (hpmem : ∀ t, ∀ cw ∈ picks t, cw < 2 * skip_window + 1 ∧ cw ≠ skip_window) :
    ∃ batch labels,
      generate_batch batch_size num_skips skip_window data picks = .ok (batch, labels)
        ∧ batch.length = batch_size ∧ labels.length = batch_size
        ∧ ∀ k, k < batch_size →
            batch.getD k 0
                = (windowState (2 * skip_window + 1) data (k / num_skips)).1.getD skip_window 0
              ∧ ∃ cw ∈ picks (k / num_skips), cw < 2 * skip_window + 1 ∧ cw ≠ skip_window
                  ∧ labels.getD k 0
                      = (windowState (2 * skip_window + 1) data (k / num_skips)).1.getD cw 0 := by
  obtain ⟨df, hloop⟩ := gbLoop_ok skip_window data picks h4
    (fun t cw hc => (hpmem t cw hc).1) (batch_size / num_skips) 0
  have hbs : batch_size / num_skips * num_skips = batch_size :=
    Nat.div_mul_cancel (Nat.dvd_of_mod_eq_zero h2)
  refine ⟨specBatch skip_window data picks (batch_size / num_skips) 0,
    specLabels skip_window data picks (batch_size / num_skips) 0, ?_, ?_, ?_, ?_⟩
  · have hns : ¬ num_skips = 0 := by omega
    have hmod : ¬ batch_size % num_skips ≠ 0 := by simpa using h2
    have hsv : ¬ 2 * skip_window < num_skips := by omega
    have hloop2 : gbLoop skip_window (2 * skip_window + 1) data picks
        (batch_size / num_skips) 0 (data.take (2 * skip_window + 1)) (2 * skip_window + 1)
        = .ok (specBatch skip_window data picks (batch_size / num_skips) 0,
            specLabels skip_window data picks (batch_size / num_skips) 0, df) := hloop
    have hlen0 : ¬ data.length = 0 := by omega
    simp only [generate_batch, if_neg hns, if_neg hmod, if_neg hsv, hloop2, if_neg hlen0]
  · rw [specBatch_length skip_window data picks num_skips hplen, hbs]
  · rw [specLabels_length skip_window data picks num_skips hplen, hbs]
  · intro k hk
    have hk2 : k < batch_size / num_skips * num_skips := by rw [hbs]; exact hk
    obtain ⟨hb, cw, hcwm, hl⟩ := spec_getD skip_window data picks num_skips (by omega) hplen
      (batch_size / num_skips) 0 k hk2
    simp only [Nat.zero_add] at hb hl hcwm
    exact ⟨hb, cw, hcwm, (hpmem _ cw hcwm).1, (hpmem _ cw hcwm).2, hl⟩

/-- C1 (witness): the pair law at `batch_size = 2`, `num_skips = 2`,
`skip_window = 1`, `data = [1,2,3]`, with the sampler always drawing
`[0, 2]`. -/
theorem generate_batch_pairs_witness :
    ∃ batch labels,
      generate_batch 2 2 1 [1, 2, 3] (fun _ => [0, 2]) = .ok (batch, labels)
        ∧ batch.length = 2 ∧ labels.length = 2
        ∧ ∀ k, k < 2 →
            batch.getD k 0 = (windowState (2 * 1 + 1) [1, 2, 3] (k / 2)).1.getD 1 0
              ∧ ∃ cw ∈ (fun _ : Nat => [0, 2]) (k / 2), cw < 2 * 1 + 1 ∧ cw ≠ 1
                  ∧ labels.getD k 0
                      = (windowState (2 * 1 + 1) [1, 2, 3] (k / 2)).1.getD cw 0 :=
  generate_batch_pairs 2 2 1 [1, 2, 3] (fun _ => [0, 2]) (by decide) (by decide) (by decide)
    (by decide) (fun _ => rfl)
    (fun t cw hc => by
      rcases List.mem_cons.mp hc with h | h
      · subst h; exact ⟨by decide, by decide⟩
      · rcases List.mem_cons.mp h with h5 | h5
        · subst h5; exact ⟨by decide, by decide⟩
        · exact absurd h5 (List.not_mem_nil _))

/-- C4 (counterexample): two successive calls with identical valid
arguments and a shared seeded random source are NOT always distinct:
when the source yields the same sample for both calls (here always
`[0, 2]`), the two runs return identical results. -/
theorem generate_batch_twice_equal_cex :
    (generate_batch_twice 2 2 1 [1, 2, 3] (fun _ => [0, 2])).1
      = (generate_batch_twice 2 2 1 [1, 2, 3] (fun _ => [0, 2])).2 := rfl

/-- C4 (amended): because the shared random source advances across the
two calls (the second call reads the sample stream at offset
`batch_size / num_skips`), two calls with identical arguments CAN
produce distinct results: a seeded source exists under which the two
runs differ. -/
theorem generate_batch_twice_can_differ :
    ∃ src : Nat → List Nat,
      (generate_batch_twice 2 2 1 [1, 2, 3] src).1
        ≠ (generate_batch_twice 2 2 1 [1, 2, 3] src).2 := by
  refine ⟨fun i => if i = 0 then [0, 2] else [2, 0], ?_⟩
  intro hcontra
  have hr1 : (generate_batch_twice 2 2 1 [1, 2, 3]
      (fun i => if i = 0 then [0, 2] else [2, 0])).1 = .ok ([2, 2], [1, 3]) := rfl
  have hr2 : (generate_batch_twice 2 2 1 [1, 2, 3]
      (fun i => if i = 0 then [0, 2] else [2, 0])).2 = .ok ([2, 2], [3, 1]) := rfl
  rw [hr1, hr2] at hcontra
  simp at hcontra

/-- C7: given `data` at least `span = 2*skip_window+1` tokens long and a
well-defined modulus (`num_skips ≥ 1`), `generate_batch` fails with an
assertion failure if and only if `batch_size % num_skips ≠ 0` or
`num_skips > 2*skip_window`; when both validity conditions hold it never
raises an assertion failure.  For `num_skips = 0`, evaluating
`batch_size % num_skips` itself raises `ZeroDivisionError`, not an
assertion failure. -/
theorem generate_batch_assert_iff (batch_size num_skips skip_window : Nat) (data : List Nat)
    (picks : Nat → List Nat) (hspan : 2 * skip_window + 1 ≤ data.length) :
    (1 ≤ num_skips →
        (generate_batch batch_size num_skips skip_window data picks = .error .assertionError
          ↔ batch_size % num_skips ≠ 0 ∨ 2 * skip_window < num_skips))
      ∧ (num_skips = 0 →
          generate_batch batch_size num_skips skip_window data picks
            = .error .zeroDivisionError) := by
  constructor
  · intro hns
    constructor
    · intro h
      by_contra hc
      push_neg at hc
      obtain ⟨hmod, hle⟩ := hc
      have hns2 : ¬ num_skips = 0 := by omega
      have hmod2 : ¬ batch_size % num_skips ≠ 0 := by simpa using hmod
      have hle2 : ¬ 2 * skip_window < num_skips := by omega
      simp only [generate_batch, if_neg hns2, if_neg hmod2, if_neg hle2] at h
      rcases hg : gbLoop skip_window (2 * skip_window + 1) data picks
          (batch_size / num_skips) 0 (data.take (2 * skip_window + 1))
          (2 * skip_window + 1) with e | v
      · rw [hg] at h
        simp only [Except.error.injEq] at h
        rw [gbLoop_error_eq hg] at h
        exact PyError.noConfusion h
      · obtain ⟨bs, ls, df⟩ := v
        rw [hg] at h
        have hlen0 : ¬ data.length = 0 := by omega
        simp [hlen0] at h
    · intro hcond
      have hns2 : ¬ num_skips = 0 := by omega
      by_cases hmod : batch_size % num_skips ≠ 0
      · simp only [generate_batch, if_neg hns2, if_pos hmod]
      · have hlt : 2 * skip_window < num_skips := by
          rcases hcond with hcond | hcond
          · exact absurd hcond hmod
          · exact hcond
        simp only [generate_batch, if_neg hns2, if_neg hmod, if_pos hlt]
  · intro h0
    simp only [generate_batch, if_pos h0]

/-- C7 (witness): `batch_size = 3`, `num_skips = 2` violates
divisibility and trips the assertion; `num_skips = 0` raises
`ZeroDivisionError` instead. -/
theorem generate_batch_assert_iff_witness :
    (generate_batch 3 2 1 [0, 1, 2] (fun _ => [0, 2]) = .error .assertionError
        ↔ (3 : Nat) % 2 ≠ 0 ∨ 2 * 1 < 2)
      ∧ generate_batch 3 0 1 [0, 1, 2] (fun _ => [0, 2]) = .error .zeroDivisionError :=
  ⟨(generate_batch_assert_iff 3 2 1 [0, 1, 2] (fun _ => [0, 2]) (by decide)).1 (by decide),
    (generate_batch_assert_iff 3 0 1 [0, 1, 2] (fun _ => [0, 2]) (by decide)).2 rfl⟩

/-- C8 (counterexample): with `batch_size = 0` (which is divisible by
`num_skips = 1 ≤ 2*skip_window`) and `data = [7]` shorter than
`span = 3`, `generate_batch` runs zero loop iterations and returns
`([], [])` without any error, for any sampling outcome — refuting the
claim that every short-data call fails. -/
theorem generate_batch_short_ok_cex :
    List.length [7] < 2 * 1 + 1 ∧ (0 : Nat) % 1 = 0 ∧ 1 ≤ 2 * 1
      ∧ generate_batch 0 1 1 [7] (fun _ => []) = .ok ([], []) :=
  ⟨by decide, by decide, by decide, rfl⟩

/-- C8 (amended): for every `data` shorter than `span = 2*skip_window+1`
and otherwise valid arguments that run at least one loop iteration
(`1 ≤ num_skips ≤ batch_size`), `generate_batch` fails with an
`IndexError`, for every possible outcome of the random position
sampling. -/
theorem generate_batch_short_indexError (batch_size num_skips skip_window : Nat)
    (data : List Nat) (picks : Nat → List Nat)
    (hshort : data.length < 2 * skip_window + 1)
    (hmod : batch_size % num_skips = 0) (hle : num_skips ≤ 2 * skip_window)
    (h1 : 1 ≤ num_skips) (h2 : num_skips ≤ batch_size) :
    generate_batch batch_size num_skips skip_window data picks = .error .indexError := by
  have hns2 : ¬ num_skips = 0 := by omega
  have hmod2 : ¬ batch_size % num_skips ≠ 0 := by simpa using hmod
  have hle2 : ¬ 2 * skip_window < num_skips := by omega
  obtain ⟨g, hg⟩ : ∃ g, batch_size / num_skips = g + 1 := by
    have hone : 1 ≤ batch_size / num_skips := (Nat.one_le_div_iff (by omega)).mpr h2
    exact ⟨batch_size / num_skips - 1, by omega⟩
  have hloop : gbLoop skip_window (2 * skip_window + 1) data picks (g + 1) 0
      (data.take (2 * skip_window + 1)) (2 * skip_window + 1) = .error .indexError := by
    simp only [gbLoop]
    rcases he : emitPairs skip_window (data.take (2 * skip_window + 1)) (picks 0)
      with e | v
    · have he2 : e = PyError.indexError := emitPairs_error_eq he
      subst he2
      rfl
    · obtain ⟨bs, ls⟩ := v
      have hadv : advance (2 * skip_window + 1) data (data.take (2 * skip_window + 1))
          (2 * skip_window + 1) = .error .indexError := by
        unfold advance
        have hne : ¬ (2 * skip_window + 1) = data.length := by omega
        have hlt : ¬ (2 * skip_window + 1) < data.length := by omega
        rw [if_neg hne, if_neg hlt]
      simp only [hadv]
  simp only [generate_batch, if_neg hns2, if_neg hmod2, if_neg hle2, hg, hloop]

/-- C8 (witness): the amended short-data failure at `batch_size = 2`,
`num_skips = 2`, `skip_window = 1`, `data = [5, 6]`. -/
theorem generate_batch_short_indexError_witness :
    List.length [5, 6] < 2 * 1 + 1
      ∧ generate_batch 2 2 1 [5, 6] (fun _ => [0, 2]) = .error .indexError :=
  ⟨by decide, generate_batch_short_indexError 2 2 1 [5, 6] (fun _ => [0, 2]) (by decide)
    (by decide) (by decide) (by decide) (by decide)⟩

/-! ## Claim theorems: the singleton embedding handle -/

/-- C9: once the process-wide `embed` global holds a handle, every
subsequent sequence of calls to `UniversalEmbedding` or
`GetEmbeddingSize` leaves the state unchanged — in particular the handle
is never reassigned and no further `hub.Module` construction (re-fetch)
is performed. -/
theorem embed_singleton_persistent (s : EmbedState) (h : EmbedHandle)
    (calls : List EmbedCall) (hset : s.embed = some h) :
    runCalls calls s = s ∧ (runCalls calls s).constructions = s.constructions := by
  have hstep : ∀ c, applyCall c s = s := by
    intro c
    cases c with
    | ue x => simp [applyCall, UniversalEmbedding, hset]
    | ges => simp [applyCall, GetEmbeddingSize, hset]
  have hrun : runCalls calls s = s := by
    induction calls with
    | nil => rfl
    | cons c cs ih =>
      simp only [runCalls, List.foldl_cons, hstep c]
      simpa only [runCalls] using ih
  exact ⟨hrun, by rw [hrun]⟩

/-- C9 (witness): with the handle already set, the calls
`GetEmbeddingSize(); UniversalEmbedding(["a"])` leave the state intact
and the construction count stays 1. -/
theorem embed_singleton_persistent_witness :
    runCalls [EmbedCall.ges, EmbedCall.ue ["a"]] ⟨some (hubModule encoderResource), 1⟩
        = ⟨some (hubModule encoderResource), 1⟩
      ∧ (runCalls [EmbedCall.ges, EmbedCall.ue ["a"]]
            ⟨some (hubModule encoderResource), 1⟩).constructions = 1 :=
  embed_singleton_persistent ⟨some (hubModule encoderResource), 1⟩
    (hubModule encoderResource) [EmbedCall.ges, EmbedCall.ue ["a"]] rfl
